import Mathlib

set_option maxRecDepth 100000

/-!
Formal model of the core of the Summarizer_journal repository: the translation
retry/fallback engine (src/src/translator.py) and the durable progress ledger
(src/src/progress_manager.py).

Conventions of the embedding:
- Machine time is modelled abstractly: ISO-8601 timestamps become integers
  (`Int`), measured in days, so that `datetime.now() - timedelta(days = R)`
  becomes `now - R`.  Every timestamp the program itself writes comes from
  `datetime.now().isoformat()` and is well formed, so the `ValueError` branch
  of `datetime.fromisoformat` is outside the modelled state space.
- Fallible Python code (code that can raise) is embedded as `Except`-valued
  or `Option`-valued functions; a function returning a plain value models
  code that never raises.
- Each call of `datetime.now()` is a separate draw from the clock and is
  therefore a separate explicit argument.
-/

/-! ## Retry engine (translator.py, BaseTranslator._retry_loop, lines 54-78) -/

/-- Outcome of running the retry loop, instrumented with the observable trace:
the final result, the list of back-off sleeps performed (in order), and the
total number of invocations of the wrapped operation. -/
structure RetryResult (E A : Type) where
  result : Except E A
  sleeps : List Nat
  calls : Nat

/-- Model of `BaseTranslator._retry_loop`.  The Python loop keeps a counter
`attempt` (number of failures so far, equal to the 0-based index of the
current invocation) and exits when `attempt > max_retries` after a failure.
Here `op i` is the outcome of the `(i+1)`-th invocation of `func`,
`attempt` is the 0-based index of the current invocation, and `remaining`
is `max_retries - attempt`, the number of retries the budget still allows;
`remaining = 0` after a failure is exactly the `attempt > max_retries` exit,
which re-raises the last error.  The sleep performed between attempts is
`min(retry_delay * 2 ** (attempt - 1), 60)` with the already-incremented
Python counter, hence the exponent `attempt + 1 - 1` below. -/
def retryLoopAux {E A : Type} (retry_delay : Nat) (op : Nat → Except E A) :
    Nat → Nat → RetryResult E A
  | remaining, attempt =>
    match op attempt with
    | .ok a => ⟨.ok a, [], 1⟩
    | .error e =>
      match remaining with
      | 0 => ⟨.error e, [], 1⟩
      | r + 1 =>
        let sleep_time := min (retry_delay * 2 ^ (attempt + 1 - 1)) 60
        let rest := retryLoopAux retry_delay op r (attempt + 1)
        ⟨rest.result, sleep_time :: rest.sleeps, rest.calls + 1⟩

/-- `BaseTranslator._retry_loop(func)`: run `op` starting at attempt 0 with
the configured budget (`max_retries`, default 3) and base delay
(`retry_delay`, default 2). -/
def retry_loop {E A : Type} (max_retries retry_delay : Nat)
    (op : Nat → Except E A) : RetryResult E A :=
  retryLoopAux retry_delay op max_retries 0

/-! ## Translation service (translator.py, OllamaTranslator.translate, lines 106-153) -/

/-- Result dictionary of `translate`: exactly the two keys built by the
source, `english_abstract` and `korean_summary`. -/
structure TranslationResult where
  english_abstract : String
  korean_summary : String
deriving DecidableEq

/-- Outcome of one `session.post` exchange with the Ollama backend:
either a transport-level exception, or an HTTP reply carrying a status code
and the optional `response` field of the decoded JSON body. -/
inductive BackendOutcome where
  | netError
  | reply (status : Nat) (response : Option String)
deriving DecidableEq

/-- Model of the inner `do_request` closure of `OllamaTranslator.translate`:
a transport error raises; a non-200 status raises `TranslationError`; a 200
reply yields the result dictionary, substituting the literal placeholder
`"요약 실패"` when the JSON body has no `response` field
(`data.get('response', '요약 실패')`).  Error payloads carry no information
used by any caller, so the error type is `Unit`. -/
def do_request (abstract : String) (o : BackendOutcome) :
    Except Unit TranslationResult :=
  match o with
  | .netError => .error ()
  | .reply status response =>
    if status ≠ 200 then .error ()
    else .ok ⟨abstract, response.getD "요약 실패"⟩

/-- Model of `OllamaTranslator.translate(title, abstract)`: run `do_request`
under the retry loop; if the retry budget is exhausted, catch the terminal
error and fall back to the naive truncation
`(abstract[:300] + '...') if len(abstract) > 300 else abstract`.
`backend i` is the backend outcome seen by the `(i+1)`-th invocation.
The title only enters the prompt and the log line, not the result. -/
def OllamaTranslator.translate (max_retries retry_delay : Nat) (title abstract : String)
    (backend : Nat → BackendOutcome) : TranslationResult :=
  let _ := title
  match (retry_loop max_retries retry_delay
      (fun i => do_request abstract (backend i))).result with
  | .ok r => r
  | .error _ =>
    ⟨abstract, if abstract.length > 300 then abstract.take 300 ++ "..." else abstract⟩

/-! ## Progress ledger state (progress_manager.py, lines 95-127) -/

/-- One per-journal record of the ledger (`self._data[journal]`). -/
structure JournalProgress where
  last_processed : Option Int
  processed_ids : List String
  last_success : Option Int
  error_count : Nat
deriving DecidableEq

/-- The in-memory ledger `self._data`: a Python dict from journal name to
record, modelled as a partial map (all claims about it are per-key). -/
abbrev Ledger := String → Option JournalProgress

/-- The empty ledger `{}`. -/
def emptyLedger : Ledger := fun _ => none

/-- The default record installed by `setdefault` in `add_processed`. -/
def newJournalProgress : JournalProgress :=
  { last_processed := none, processed_ids := [], last_success := none, error_count := 0 }

/-- `ProgressManager.is_processed(journal, paper_id)` (lines 95-97): pure
membership test; an absent journal yields an empty id list. -/
def is_processed (l : Ledger) (journal paper_id : String) : Bool :=
  match l journal with
  | none => false
  | some j => j.processed_ids.contains paper_id

/-- `ProgressManager.add_processed(journal, paper_id)` (lines 99-109):
`setdefault` the journal record, append the id only if absent, then set
`last_processed` and `last_success` from two separate `datetime.now()`
calls, here the two explicit arguments `now1` and `now2`. -/
def add_processed (l : Ledger) (journal paper_id : String) (now1 now2 : Int) : Ledger :=
  let j0 := (l journal).getD newJournalProgress
  let j1 := if paper_id ∈ j0.processed_ids then j0
            else { j0 with processed_ids := j0.processed_ids ++ [paper_id] }
  let j2 := { j1 with last_processed := some now1, last_success := some now2 }
  fun k => if k = journal then some j2 else l k

/-- Size-trim step of `cleanup` (lines 116-117): a journal with more than 500
ids keeps only `processed[-500:]`, the most recent 500 in original order. -/
def trimStep (info : JournalProgress) : JournalProgress :=
  if info.processed_ids.length > 500 then
    { info with processed_ids :=
        info.processed_ids.drop (info.processed_ids.length - 500) }
  else info

/-- `ProgressManager.cleanup()` (lines 111-127) with retention window
`retention_days` (default 90) at clock value `now`: per journal, apply the
size trim, then delete the journal when `last_processed` is set and older
than `cutoff = now - timedelta(days=retention_days)`.  A journal with
`last_processed` equal to `None` is kept. -/
def cleanup (retention_days : Nat) (now : Int) (l : Ledger) : Ledger :=
  let cutoff : Int := now - retention_days
  fun j =>
    match l j with
    | none => none
    | some info =>
      let info := trimStep info
      match info.last_processed with
      | some dt => if dt < cutoff then none else some info
      | none => some info

/-- Ledger states reachable from the empty ledger by the public mutating
operations (`is_processed` reads only).  Each `add_processed` call carries
its two independent `datetime.now()` draws. -/
inductive Reachable : Ledger → Prop where
  | empty : Reachable emptyLedger
  | add (l : Ledger) (j p : String) (t1 t2 : Int) :
      Reachable l → Reachable (add_processed l j p t1 t2)
  | clean (l : Ledger) (R : Nat) (now : Int) :
      Reachable l → Reachable (cleanup R now l)

/-- Ledger states reachable when the two clock draws inside each
`add_processed` call coincide (the clock does not advance between the two
adjacent `datetime.now()` calls). -/
inductive ReachableSync : Ledger → Prop where
  | empty : ReachableSync emptyLedger
  | add (l : Ledger) (j p : String) (t : Int) :
      ReachableSync l → ReachableSync (add_processed l j p t t)
  | clean (l : Ledger) (R : Nat) (now : Int) :
      ReachableSync l → ReachableSync (cleanup R now l)

/-! ## Ledger persistence (progress_manager.py, lines 39-93)

The directory holding the ledger file is modelled as an association list of
file names and contents.  A file content is either a parseable JSON document
with payload `d` (the claims never depend on the internal structure of the
payload, so it is a type parameter) or unparseable bytes, as produced by a
truncated or corrupted write; `json.load` is the evident projection.

File names in the directory of the ledger file `<file>` are structured:
the live file itself, the temporary file `<file>.tmp`, a backup
`<file>.<timestamp>.bak`, or an unrelated file.  The timestamps are
`strftime('%Y%m%d%H%M%S')` strings, always exactly 14 digits, so comparing
two backup names as strings is comparing the timestamps numerically; a
backup timestamp is therefore carried as a `Nat`.  The Python test
`f.startswith(base + '.')` holds exactly for the tmp and bak names (an
unrelated file is assumed not to begin with `<file>.`), and Python
`sort(reverse=True)` on the realized names orders `<file>.tmp` before every
`<file>.<digits>.bak` (the character `t` is greater than every digit) and
backups by descending timestamp. -/

/-- Content of one file on disk. -/
inductive FileContent (α : Type) where
  | valid (d : α)
  | invalid
deriving DecidableEq

/-- `json.load` on a file content: the payload, or an exception (`none`). -/
def jsonLoad {α : Type} : FileContent α → Option α
  | .valid d => some d
  | .invalid => none

/-- Structured name of a file in the ledger directory. -/
inductive FName where
  | live
  | tmp
  | bak (ts : Nat)
  | other (s : String)
deriving DecidableEq

/-- The Python filter `f.startswith(base + '.')`. -/
def matchesBaseDot : FName → Bool
  | .tmp => true
  | .bak _ => true
  | .live => false
  | .other _ => false

/-- First component of the sort key of a realized file name among the
candidates: `tmp` sorts above every `bak`. -/
def nameTag : FName → Nat
  | .tmp => 1
  | _ => 0

/-- Second component of the sort key: the backup timestamp. -/
def nameTs : FName → Nat
  | .bak ts => ts
  | _ => 0

/-- Realized file names compare as `x ≤ y` (Python string order restricted to
the names that pass the prefix filter). -/
def nameKeyLe (x y : FName) : Prop :=
  nameTag x < nameTag y ∨ (nameTag x = nameTag y ∧ nameTs x ≤ nameTs y)

instance : DecidableRel nameKeyLe := fun x y => by
  unfold nameKeyLe; infer_instance

/-- Strict version of `nameKeyLe`. -/
def nameKeyLt (x y : FName) : Prop := nameKeyLe x y ∧ ¬ nameKeyLe y x

instance : DecidableRel nameKeyLt := fun x y => by
  unfold nameKeyLt; infer_instance

/-- The descending comparison used by `backups.sort(reverse=True)`:
`x` comes before `y` when the realized name of `y` is at most that of `x`. -/
abbrev descBefore (x y : FName) : Prop := nameKeyLe y x

instance : IsTotal FName descBefore :=
  ⟨fun a b => by unfold descBefore nameKeyLe; omega⟩

instance : IsTrans FName descBefore :=
  ⟨fun a b c hab hbc => by
    unfold descBefore nameKeyLe at *; omega⟩

/-- A directory listing: file names with their contents. -/
abbrev Dir (α : Type) := List (FName × FileContent α)

/-- Read a file: the content of the first entry with the given name. -/
def readFile {α : Type} : Dir α → FName → Option (FileContent α)
  | [], _ => none
  | (m, c) :: fs, n => if m = n then some c else readFile fs n

/-- Write a file: replace the content in place, or create the file. -/
def writeFile {α : Type} : Dir α → FName → FileContent α → Dir α
  | [], n, c => [(n, c)]
  | (m, c0) :: fs, n, c =>
    if m = n then (m, c) :: fs else (m, c0) :: writeFile fs n c

/-- `os.remove`: drop every entry with the given name. -/
def removeFile {α : Type} : Dir α → FName → Dir α
  | [], _ => []
  | (m, c) :: fs, n =>
    if m = n then removeFile fs n else (m, c) :: removeFile fs n

/-- The guarded removal `if os.path.exists(p): os.remove(p)` pattern used by
the error handler of `save` (the inner `OSError` of the removal is ignored
by the source and not modelled). -/
def removeIfExists {α : Type} (fs : Dir α) (n : FName) : Dir α :=
  if (readFile fs n).isSome then removeFile fs n else fs

/-- The listing-filter-sort sequence shared by `_recover_from_backup` and
`_rotate_backups`: names starting with `base + '.'`, sorted descending by
realized name. -/
def sortedCandidates {α : Type} (fs : Dir α) : List FName :=
  List.insertionSort descBefore ((fs.map Prod.fst).filter matchesBaseDot)

/-- The recovery loop of `_recover_from_backup` (lines 55-62): try each
candidate in order, returning the first payload that parses. -/
def tryBackups {α : Type} (fs : Dir α) : List FName → Option α
  | [] => none
  | b :: bs =>
    match (readFile fs b).bind jsonLoad with
    | some d => some d
    | none => tryBackups fs bs

/-- `ProgressManager._recover_from_backup` (lines 50-63): scan the sorted
candidates; when none parses the data is left empty (`none`). -/
def recover_from_backup {α : Type} (fs : Dir α) : Option α :=
  tryBackups fs (sortedCandidates fs)

/-- `ProgressManager.load` (lines 39-48): absent file gives the empty ledger
`empty`; an unreadable or unparseable file triggers the recovery cascade,
whose total failure also gives `empty`.  The function is total: no branch
raises. -/
def load {α : Type} (empty : α) (fs : Dir α) : α :=
  match readFile fs .live with
  | none => empty
  | some c =>
    match jsonLoad c with
    | some d => d
    | none => (recover_from_backup fs).getD empty

/-- `ProgressManager._rotate_backups` (lines 65-77) at timestamp `ts` with
keep-count `backup_count`: copy the live file to `<file>.<ts>.bak`, then
remove every candidate beyond the `backup_count` newest.  Only called by
`save` when the live file exists; the `none` branch is unreachable there.
The removal loop ignores `OSError` and never raises. -/
def rotate_backups {α : Type} (ts : Nat) (backup_count : Nat) (fs : Dir α) : Dir α :=
  match readFile fs .live with
  | none => fs
  | some c =>
    let fs1 := writeFile fs (.bak ts) c
    ((sortedCandidates fs1).drop backup_count).foldl removeFile fs1

/-- Injected failure point for one run of `save`: which step of the sequence
raises, if any.  `rotate` models an exception inside `_rotate_backups`
(before its first filesystem effect; the claims only concern the live and
temporary files, which rotation never touches), `write` an exception while
writing the temporary file (leaving it with partial, unparseable content),
`replace` a failure of `os.replace`. -/
inductive FailPoint where
  | rotate
  | write
  | replace
  | noFail
deriving DecidableEq

/-- `ProgressManager.save` (lines 79-93) writing payload `d`: rotate backups
when a live file exists, write the new contents to `<file>.tmp`, and install
them with the atomic `os.replace`.  Any exception is caught: the handler
removes the temporary file if it exists and returns normally, so `save` is a
total function into the resulting directory (it never raises).  A `rotate`
failure can only occur when the rotation step actually runs, that is when
the live file exists. -/
def save {α : Type} (ts : Nat) (backup_count : Nat) (d : α)
    (fail : FailPoint) (fs : Dir α) : Dir α :=
  if fail = .rotate ∧ (readFile fs .live).isSome then
    removeIfExists fs .tmp
  else
    let fs1 := if (readFile fs .live).isSome then rotate_backups ts backup_count fs else fs
    if fail = .write then
      removeIfExists (writeFile fs1 .tmp .invalid) .tmp
    else
      let fs2 := writeFile fs1 .tmp (.valid d)
      if fail = .replace then
        removeIfExists fs2 .tmp
      else
        removeFile (writeFile fs2 .live (.valid d)) .tmp

/-! ## Concrete inputs used by the witnesses -/

/-- An operation failing on every invocation. -/
def failOp : Nat → Except Unit Unit := fun _ => .error ()

/-- An operation failing on every invocation, with a value type. -/
def failOpN : Nat → Except Unit Nat := fun _ => .error ()

/-- An operation failing twice, then succeeding with 7. -/
def opFailTwice : Nat → Except Unit Nat := fun i => if i < 2 then .error () else .ok 7

/-- A backend whose transport fails on every call. -/
def netErrorBackend : Nat → BackendOutcome := fun _ => .netError

/-- A backend replying 200 with a JSON body missing the response field. -/
def emptyReplyBackend : Nat → BackendOutcome := fun _ => .reply 200 none

/-- A journal record holding 501 ids. -/
def bigInfo : JournalProgress :=
  { last_processed := some 0, processed_ids := List.replicate 501 "x",
    last_success := some 0, error_count := 0 }

/-- The record `bigInfo` after the size trim. -/
def bigInfoTrimmed : JournalProgress :=
  { last_processed := some 0, processed_ids := List.replicate 500 "x",
    last_success := some 0, error_count := 0 }

/-- A one-journal ledger whose journal holds 501 ids. -/
def bigLedger : Ledger := fun k => if k = "a" then some bigInfo else none

/-- A record last processed 91 days before clock zero. -/
def staleInfo : JournalProgress :=
  { last_processed := some (-91), processed_ids := ["p"],
    last_success := some (-91), error_count := 0 }

/-- A record last processed 89 days before clock zero. -/
def freshInfo : JournalProgress :=
  { last_processed := some (-89), processed_ids := ["p"],
    last_success := some (-89), error_count := 0 }

/-- A record with no last-processed timestamp. -/
def nullInfo : JournalProgress :=
  { last_processed := none, processed_ids := ["p"],
    last_success := none, error_count := 0 }

/-- One-journal ledgers built from the three records above. -/
def staleLedger : Ledger := fun k => if k = "a" then some staleInfo else none

/-- See `staleLedger`. -/
def freshLedger : Ledger := fun k => if k = "a" then some freshInfo else none

/-- See `staleLedger`. -/
def nullLedger : Ledger := fun k => if k = "a" then some nullInfo else none

/-- A directory holding only a valid live ledger file with payload 7. -/
def fsC4 : Dir Nat := [(.live, .valid 7)]

/-- A directory with a corrupt live file and two valid backups; the backup
with the larger timestamp carries payload 2. -/
def fsC5 : Dir Nat :=
  [(.live, .invalid), (.bak 20240101000000, .valid 1),
   (.bak 20240102000000, .valid 2)]

/-- A directory whose live file and single backup are both corrupt. -/
def fsC5bad : Dir Nat := [(.live, .invalid), (.bak 20240101000000, .invalid)]

/-! ## Lemmas about the retry loop -/

/-- Assembling one back-off sleep onto a schedule shifts the exponent. -/
theorem sleepSchedule_cons (d attempt k : Nat) :
    min (d * 2 ^ attempt) 60 ::
      (List.range k).map (fun j => min (d * 2 ^ (attempt + 1 + j)) 60) =
    (List.range (k + 1)).map (fun j => min (d * 2 ^ (attempt + j)) 60) := by
  rw [List.range_succ_eq_map, List.map_cons, List.map_map]
  refine congrArg₂ _ (by simp) ?_
  refine List.map_congr_left fun j _ => ?_
  have : attempt + 1 + j = attempt + (j + 1) := by omega
  simp [Function.comp, this]

/-- One-step unfolding of the loop at a successful invocation. -/
theorem retryLoopAux_step_ok {E A : Type} {d : Nat} {op : Nat → Except E A}
    {attempt : Nat} {a : A} (r : Nat) (hop : op attempt = .ok a) :
    retryLoopAux d op r attempt = ⟨.ok a, [], 1⟩ := by
  unfold retryLoopAux; rw [hop]

/-- One-step unfolding of the loop at a failure with exhausted budget. -/
theorem retryLoopAux_step_err_zero {E A : Type} {d : Nat} {op : Nat → Except E A}
    {attempt : Nat} {e : E} (hop : op attempt = .error e) :
    retryLoopAux d op 0 attempt = ⟨.error e, [], 1⟩ := by
  unfold retryLoopAux; rw [hop]

/-- One-step unfolding of the loop at a failure with budget left. -/
theorem retryLoopAux_step_err_succ {E A : Type} {d : Nat} {op : Nat → Except E A}
    {attempt : Nat} {e : E} (r : Nat) (hop : op attempt = .error e) :
    retryLoopAux d op (r + 1) attempt =
      ⟨(retryLoopAux d op r (attempt + 1)).result,
       min (d * 2 ^ (attempt + 1 - 1)) 60 :: (retryLoopAux d op r (attempt + 1)).sleeps,
       (retryLoopAux d op r (attempt + 1)).calls + 1⟩ := by
  conv_lhs => unfold retryLoopAux
  rw [hop]

/-- Behaviour of the loop when the first `k` invocations starting at
`attempt` fail and the next succeeds inside the budget. -/
theorem retryLoopAux_success {E A : Type} (d : Nat) (op : Nat → Except E A) (a : A)
    (k : Nat) : ∀ (r attempt : Nat), k ≤ r →
      (∀ i, attempt ≤ i → i < attempt + k → ∃ e, op i = .error e) →
      op (attempt + k) = .ok a →
      retryLoopAux d op r attempt =
        ⟨.ok a, (List.range k).map (fun j => min (d * 2 ^ (attempt + j)) 60), k + 1⟩ := by
  induction k with
  | zero =>
    intro r attempt _ _ hok
    rw [Nat.add_zero] at hok
    cases r <;> simp [retryLoopAux, hok]
  | succ k ih =>
    intro r attempt hk hfail hok
    obtain ⟨e, he⟩ := hfail attempt (Nat.le_refl _) (by omega)
    cases r with
    | zero => omega
    | succ r =>
      have hfail1 : ∀ i, attempt + 1 ≤ i → i < attempt + 1 + k → ∃ e, op i = .error e :=
        fun i h1 h2 => hfail i (by omega) (by omega)
      have hok1 : op (attempt + 1 + k) = .ok a := by
        have h3 : attempt + 1 + k = attempt + (k + 1) := by omega
        rw [h3]; exact hok
      have hrec := ih r (attempt + 1) (by omega) hfail1 hok1
      simp only [retryLoopAux, he, hrec]
      exact congrArg₂ _ (by simp [sleepSchedule_cons]) rfl

/-- Behaviour of the loop when every invocation in the budget fails: the
error of the last invocation is re-raised and no sleep follows it. -/
theorem retryLoopAux_exhaust {E A : Type} (d : Nat) (op : Nat → Except E A)
    (r : Nat) : ∀ (attempt : Nat),
      (∀ i, attempt ≤ i → i ≤ attempt + r → ∃ e, op i = .error e) →
      ∃ e, op (attempt + r) = .error e ∧
        retryLoopAux d op r attempt =
          ⟨.error e, (List.range r).map (fun j => min (d * 2 ^ (attempt + j)) 60), r + 1⟩ := by
  induction r with
  | zero =>
    intro attempt hfail
    obtain ⟨e, he⟩ := hfail attempt (Nat.le_refl _) (by omega)
    exact ⟨e, by simpa using he, by simp [retryLoopAux, he]⟩
  | succ r ih =>
    intro attempt hfail
    obtain ⟨e0, he0⟩ := hfail attempt (Nat.le_refl _) (by omega)
    obtain ⟨e, he, heq⟩ := ih (attempt + 1) (fun i h1 h2 => hfail i (by omega) (by omega))
    refine ⟨e, ?_, ?_⟩
    · have h3 : attempt + (r + 1) = attempt + 1 + r := by omega
      rw [h3]; exact he
    · simp only [retryLoopAux, he0, heq]
      exact congrArg₂ _ (by simp [sleepSchedule_cons]) rfl

/-- A successful retry-loop result is the value of some invocation. -/
theorem retryLoopAux_ok_origin {E A : Type} (d : Nat) (op : Nat → Except E A)
    (r : Nat) : ∀ (attempt : Nat) (a : A),
      (retryLoopAux d op r attempt).result = .ok a → ∃ i, op i = .ok a := by
  induction r with
  | zero =>
    intro attempt a h
    cases hop : op attempt with
    | ok b =>
      obtain rfl : b = a := by simpa [retryLoopAux, hop] using h
      exact ⟨attempt, hop⟩
    | error e => simp [retryLoopAux, hop] at h
  | succ r ih =>
    intro attempt a h
    cases hop : op attempt with
    | ok b =>
      obtain rfl : b = a := by simpa [retryLoopAux, hop] using h
      exact ⟨attempt, hop⟩
    | error e =>
      rw [retryLoopAux_step_err_succ r hop] at h
      exact ih (attempt + 1) a (by simpa using h)

/-- The loop makes at most `remaining + 1` invocations. -/
theorem retryLoopAux_calls_le {E A : Type} (d : Nat) (op : Nat → Except E A)
    (r : Nat) : ∀ attempt, (retryLoopAux d op r attempt).calls ≤ r + 1 := by
  induction r with
  | zero => intro attempt; cases hop : op attempt <;> simp [retryLoopAux, hop]
  | succ r ih =>
    intro attempt
    cases hop : op attempt with
    | ok a => simp [retryLoopAux, hop]
    | error e =>
      have h := ih (attempt + 1)
      rw [retryLoopAux_step_err_succ r hop]
      simp only
      omega

/-! ## Claims about the retry engine -/

/-- C1, counterexample: with the default budget `max_retries = 3` and an
operation that fails on every invocation, the retry loop invokes the
operation 4 times in total, so the claimed bound of at most 3 invocations
is false on the code. -/
theorem retry_loop_counterexample_four_calls :
    (retry_loop 3 2 failOp).calls = 4 ∧ ¬ (retry_loop 3 2 failOp).calls ≤ 3 := by
  decide

/-- C1, amended: the retry loop invokes the operation at most
`max_retries + 1` times in total (the initial attempt plus at most
`max_retries` retries); if every invocation fails, the error raised by the
last invocation (the one with 0-based index `max_retries`) is re-raised to
the caller. -/
theorem retry_loop_calls_bound_and_last_error {E A : Type}
    (max_retries retry_delay : Nat) (op : Nat → Except E A) :
    (retry_loop max_retries retry_delay op).calls ≤ max_retries + 1 ∧
    (∀ e : E, (∀ i, i ≤ max_retries → ∃ e0, op i = .error e0) →
      op max_retries = .error e →
      (retry_loop max_retries retry_delay op).result = .error e) := by
  constructor
  · exact retryLoopAux_calls_le retry_delay op max_retries 0
  · intro e hall hlast
    obtain ⟨e1, he1, heq⟩ := retryLoopAux_exhaust retry_delay op max_retries 0
      (fun i h1 h2 => hall i (by omega))
    rw [Nat.zero_add, hlast] at he1
    injection he1 with h
    rw [retry_loop, heq, h]

/-- C1, witness for the amended claim at a concrete input. -/
theorem retry_loop_calls_bound_witness :
    (retry_loop 3 2 failOp).calls ≤ 3 + 1 ∧
    (retry_loop 3 2 failOp).result = .error () :=
  ⟨(retry_loop_calls_bound_and_last_error 3 2 failOp).1,
   (retry_loop_calls_bound_and_last_error 3 2 failOp).2 ()
     (fun _i _ => ⟨(), rfl⟩) rfl⟩

/-- C2: when the first `k` invocations fail and the `(k+1)`-th succeeds
within the budget, the retry loop returns the successful result and sleeps
exactly `min(retry_delay * 2 ** (i-1), 60)` seconds after the `i`-th
failure for `i = 1..k` (below `j = i - 1` is 0-based); and in an exhausted
run all of whose invocations fail, the sleep list has one entry per failure
except the last: no sleep occurs after the final failed attempt. -/
theorem retry_loop_backoff_schedule {E A : Type}
    (max_retries retry_delay k : Nat) (op : Nat → Except E A) (a : A)
    (hk : k ≤ max_retries)
    (hfail : ∀ i, i < k → ∃ e, op i = .error e)
    (hok : op k = .ok a) :
    ((retry_loop max_retries retry_delay op).result = .ok a ∧
     (retry_loop max_retries retry_delay op).sleeps =
       (List.range k).map (fun j => min (retry_delay * 2 ^ j) 60)) ∧
    (∀ op2 : Nat → Except E A, (∀ i, i ≤ max_retries → ∃ e, op2 i = .error e) →
      (retry_loop max_retries retry_delay op2).sleeps =
        (List.range max_retries).map (fun j => min (retry_delay * 2 ^ j) 60)) := by
  constructor
  · have heq := retryLoopAux_success retry_delay op a k max_retries 0 hk
      (fun i h1 h2 => hfail i (by omega)) (by simpa using hok)
    rw [retry_loop, heq]
    simp
  · intro op2 hall
    obtain ⟨e, he, heq⟩ := retryLoopAux_exhaust retry_delay op2 max_retries 0
      (fun i h1 h2 => hall i (by omega))
    rw [retry_loop, heq]
    simp

/-- C2, witness: base delay 2, two failures then success gives result 7 and
sleeps 2 then 4; a fully failing run with budget 3 sleeps 2, 4, 8 and not
after the fourth, final, failure. -/
theorem retry_loop_backoff_schedule_witness :
    ((retry_loop 3 2 opFailTwice).result = .ok 7 ∧
     (retry_loop 3 2 opFailTwice).sleeps = [2, 4]) ∧
    (retry_loop 3 2 failOpN).sleeps = [2, 4, 8] := by
  have h := retry_loop_backoff_schedule 3 2 2 opFailTwice 7 (by omega)
    (fun i hi => ⟨(), by simp only [opFailTwice]; rw [if_pos hi]⟩) rfl
  exact ⟨⟨h.1.1, h.1.2.trans (by decide)⟩,
    (h.2 failOpN (fun _i _ => ⟨(), rfl⟩)).trans (by decide)⟩

/-! ## Claims about the translation service -/

/-- C3: when every invocation of the backend request inside the budget
fails, `translate` does not raise (it is a total function) and returns the
deterministic truncation fallback together with the original abstract. -/
theorem translate_fallback_on_exhaustion
    (max_retries retry_delay : Nat) (title abstract : String)
    (backend : Nat → BackendOutcome)
    (hfail : ∀ i, i ≤ max_retries → ∃ e, do_request abstract (backend i) = .error e) :
    (OllamaTranslator.translate max_retries retry_delay title abstract backend).english_abstract
      = abstract ∧
    (OllamaTranslator.translate max_retries retry_delay title abstract backend).korean_summary
      = if abstract.length > 300 then abstract.take 300 ++ "..." else abstract := by
  obtain ⟨e, he, heq⟩ := retryLoopAux_exhaust retry_delay
    (fun i => do_request abstract (backend i)) max_retries 0
    (fun i h1 h2 => hfail i (by omega))
  constructor <;> simp [OllamaTranslator.translate, retry_loop, heq]

/-- C3, witness: a backend whose transport always fails, with a short
abstract, yields the abstract unchanged in both fields. -/
theorem translate_fallback_witness :
    (OllamaTranslator.translate 3 2 "t" "abc" netErrorBackend).english_abstract = "abc" ∧
    (OllamaTranslator.translate 3 2 "t" "abc" netErrorBackend).korean_summary = "abc" := by
  have h := translate_fallback_on_exhaustion 3 2 "t" "abc" netErrorBackend
    (fun _i _ => ⟨(), rfl⟩)
  exact ⟨h.1, h.2.trans (by decide)⟩

/-- A successful backend exchange always copies the input abstract into the
english field. -/
theorem do_request_ok_english (abstract : String) (o : BackendOutcome)
    (r : TranslationResult) (h : do_request abstract o = .ok r) :
    r.english_abstract = abstract := by
  cases o with
  | netError => simp [do_request] at h
  | reply status response =>
    by_cases hs : status = 200
    · subst hs
      simp only [do_request, ne_eq, not_true_eq_false, reduceIte] at h
      injection h with h
      rw [← h]
    · simp [do_request, hs] at h

/-- C9: `translate` always returns a record with exactly the two fields of
`TranslationResult`; `english_abstract` equals the input abstract on every
return path, and when the backend replies 200 with no usable text field the
summary is the literal placeholder instead of an exception. -/
theorem translate_result_fields (max_retries retry_delay : Nat)
    (title abstract : String) :
    (∀ backend : Nat → BackendOutcome,
      (OllamaTranslator.translate max_retries retry_delay title abstract backend).english_abstract
        = abstract) ∧
    (∀ (backend : Nat → BackendOutcome) (k : Nat), k ≤ max_retries →
      (∀ i, i < k → ∃ e, do_request abstract (backend i) = .error e) →
      backend k = .reply 200 none →
      OllamaTranslator.translate max_retries retry_delay title abstract backend
        = ⟨abstract, "요약 실패"⟩) := by
  constructor
  · intro backend
    cases hres : (retry_loop max_retries retry_delay
        (fun i => do_request abstract (backend i))).result with
    | ok r =>
      obtain ⟨i, hi⟩ := retryLoopAux_ok_origin retry_delay
        (fun i => do_request abstract (backend i)) max_retries 0 r hres
      have hr := do_request_ok_english abstract (backend i) r hi
      simp only [OllamaTranslator.translate, hres]
      exact hr
    | error e =>
      simp only [OllamaTranslator.translate, hres]
  · intro backend k hk hfail hbk
    have hok : do_request abstract (backend k) = .ok ⟨abstract, "요약 실패"⟩ := by
      rw [hbk]; rfl
    have heq := retryLoopAux_success retry_delay
      (fun i => do_request abstract (backend i)) ⟨abstract, "요약 실패"⟩ k max_retries 0 hk
      (fun i h1 h2 => hfail i (by omega)) (by simpa using hok)
    simp only [OllamaTranslator.translate, retry_loop, heq]

/-- C9, witness: a backend that replies 200 with no text field gives the
placeholder summary and the abstract unchanged. -/
theorem translate_result_fields_witness :
    (OllamaTranslator.translate 3 2 "t" "abs" emptyReplyBackend).english_abstract = "abs" ∧
    OllamaTranslator.translate 3 2 "t" "abs" emptyReplyBackend = ⟨"abs", "요약 실패"⟩ := by
  have h := translate_result_fields 3 2 "t" "abs"
  exact ⟨h.1 emptyReplyBackend,
    h.2 emptyReplyBackend 0 (by omega) (fun i hi => absurd hi (by omega)) rfl⟩

/-! ## Lemmas about the ledger operations -/

/-- Value of `add_processed` at the journal it touches. -/
theorem add_processed_self (l : Ledger) (j p : String) (t1 t2 : Int) :
    (add_processed l j p t1 t2) j =
      some { last_processed := some t1,
             processed_ids :=
               if p ∈ ((l j).getD newJournalProgress).processed_ids then
                 ((l j).getD newJournalProgress).processed_ids
               else ((l j).getD newJournalProgress).processed_ids ++ [p],
             last_success := some t2,
             error_count := ((l j).getD newJournalProgress).error_count } := by
  simp only [add_processed, if_pos rfl]
  split <;> rfl

/-- `add_processed` leaves every other journal unchanged. -/
theorem add_processed_other (l : Ledger) (j p : String) (t1 t2 : Int)
    (k : String) (hk : k ≠ j) : (add_processed l j p t1 t2) k = l k := by
  simp [add_processed, hk]

/-- Pointwise unfolding of `cleanup`. -/
theorem cleanup_eq (R : Nat) (now : Int) (l : Ledger) (j : String) :
    cleanup R now l j =
      match l j with
      | none => none
      | some info =>
        match (trimStep info).last_processed with
        | some dt => if dt < now - R then none else some (trimStep info)
        | none => some (trimStep info) := rfl

/-- Value of the size trim on an oversized journal. -/
theorem trimStep_eq_of_gt (info : JournalProgress)
    (h500 : info.processed_ids.length > 500) :
    trimStep info =
      { info with processed_ids :=
          info.processed_ids.drop (info.processed_ids.length - 500) } := by
  unfold trimStep; rw [if_pos h500]

/-- The size trim fixes a journal with at most 500 ids. -/
theorem trimStep_eq_of_le (info : JournalProgress)
    (hle : info.processed_ids.length ≤ 500) : trimStep info = info := by
  unfold trimStep; rw [if_neg (by omega)]

/-- The size trim never changes `last_processed`. -/
theorem trimStep_last_processed (info : JournalProgress) :
    (trimStep info).last_processed = info.last_processed := by
  unfold trimStep; split <;> rfl

/-- The size trim never changes `last_success`. -/
theorem trimStep_last_success (info : JournalProgress) :
    (trimStep info).last_success = info.last_success := by
  unfold trimStep; split <;> rfl

/-- Pointwise value of `cleanup` at a present journal. -/
theorem cleanup_eq_some (R : Nat) (now : Int) (l : Ledger) (j : String)
    (info : JournalProgress) (hj : l j = some info) :
    cleanup R now l j =
      match (trimStep info).last_processed with
      | some dt => if dt < now - R then none else some (trimStep info)
      | none => some (trimStep info) := by
  rw [cleanup_eq, hj]

/-- Pointwise value of `cleanup` at an absent journal. -/
theorem cleanup_eq_none (R : Nat) (now : Int) (l : Ledger) (j : String)
    (hj : l j = none) : cleanup R now l j = none := by
  rw [cleanup_eq, hj]

/-- A journal surviving `cleanup` carries exactly its trimmed record. -/
theorem cleanup_some (R : Nat) (now : Int) (l : Ledger) (j : String)
    (info r : JournalProgress) (hj : l j = some info)
    (hr : cleanup R now l j = some r) : r = trimStep info := by
  rw [cleanup_eq_some R now l j info hj] at hr
  split at hr
  · split at hr
    · exact absurd hr (by simp)
    · exact (Option.some.inj hr).symm
  · exact (Option.some.inj hr).symm

/-! ## Claims about the ledger operations -/

/-- C6: `add_processed` is idempotent on the id sequence (a second insertion
of the same id changes nothing), while still refreshing both timestamps
from the clock draws of the second call; and on first use of a journal name
the record is created from the all-empty default (ids empty, timestamps
null, error count zero), so the record after one call holds exactly the one
id, the two fresh timestamps, and a zero error count. -/
theorem add_processed_idempotent (l : Ledger) (j p : String) (t1 t2 t3 t4 : Int) :
    ((add_processed (add_processed l j p t1 t2) j p t3 t4) j).map
        JournalProgress.processed_ids
      = ((add_processed l j p t1 t2) j).map JournalProgress.processed_ids ∧
    (∀ r, (add_processed (add_processed l j p t1 t2) j p t3 t4) j = some r →
      r.last_processed = some t3 ∧ r.last_success = some t4) ∧
    (l j = none →
      (add_processed l j p t1 t2) j =
        some { last_processed := some t1, processed_ids := [p],
               last_success := some t2, error_count := 0 }) := by
  refine ⟨?_, ?_, ?_⟩
  · rw [add_processed_self (add_processed l j p t1 t2) j p t3 t4,
      add_processed_self l j p t1 t2]
    simp only [Option.getD_some, Option.map_some]
    by_cases hp : p ∈ ((l j).getD newJournalProgress).processed_ids
    · simp [hp]
    · simp [hp]
  · intro r hr
    rw [add_processed_self] at hr
    obtain rfl := (Option.some.inj hr).symm
    exact ⟨rfl, rfl⟩
  · intro hnone
    rw [add_processed_self, hnone]
    simp [newJournalProgress]

/-- C6, witness: a fresh journal, two insertions of the same id. -/
theorem add_processed_idempotent_witness :
    ((add_processed (add_processed emptyLedger "a" "b" 0 1) "a" "b" 2 3) "a").map
        JournalProgress.processed_ids
      = ((add_processed emptyLedger "a" "b" 0 1) "a").map
        JournalProgress.processed_ids ∧
    (add_processed emptyLedger "a" "b" 0 1) "a" =
      some { last_processed := some 0, processed_ids := ["b"],
             last_success := some 1, error_count := 0 } ∧
    ({ last_processed := some 2, processed_ids := ["b"],
       last_success := some 3, error_count := 0 } : JournalProgress).last_processed
        = some 2 :=
  ⟨(add_processed_idempotent emptyLedger "a" "b" 0 1 2 3).1,
   (add_processed_idempotent emptyLedger "a" "b" 0 1 2 3).2.2 rfl,
   ((add_processed_idempotent emptyLedger "a" "b" 0 1 2 3).2.1
     { last_processed := some 2, processed_ids := ["b"],
       last_success := some 3, error_count := 0 } (by decide)).1⟩

/-- C7: a journal that survives `cleanup` and entered with more than 500 ids
keeps exactly the most recent 500, in original relative order (the suffix
`processed[-500:]` of its id list); the trim step leaves a journal with at
most 500 ids unchanged. -/
theorem cleanup_trims_to_500 (R : Nat) (now : Int) (l : Ledger) (j : String)
    (info r : JournalProgress) (hj : l j = some info)
    (hr : cleanup R now l j = some r) :
    (info.processed_ids.length > 500 →
      r.processed_ids =
        info.processed_ids.drop (info.processed_ids.length - 500) ∧
      r.processed_ids.length = 500) ∧
    (info.processed_ids.length ≤ 500 → trimStep info = info) := by
  obtain rfl := cleanup_some R now l j info r hj hr
  constructor
  · intro h500
    rw [trimStep_eq_of_gt info h500]
    exact ⟨rfl, by simp only [List.length_drop]; omega⟩
  · intro hle
    exact trimStep_eq_of_le info hle

/-- C7, witness: a journal with 501 ids retains the most recent 500. -/
theorem cleanup_trims_to_500_witness :
    (bigInfo.processed_ids.length > 500 →
      bigInfoTrimmed.processed_ids =
        bigInfo.processed_ids.drop (bigInfo.processed_ids.length - 500) ∧
      bigInfoTrimmed.processed_ids.length = 500) ∧
    (bigInfo.processed_ids.length ≤ 500 → trimStep bigInfo = bigInfo) :=
  cleanup_trims_to_500 90 0 bigLedger "a" bigInfo bigInfoTrimmed
    (by decide) (by decide)

/-- C8: after `cleanup` with retention window `R` at clock `now`, a journal
whose `last_processed` lies strictly before `now - R` is removed from the
ledger, one whose `last_processed` is at least `now - R` remains (with its
trimmed record), and one with a null `last_processed` is never evicted. -/
theorem cleanup_staleness_eviction (R : Nat) (now : Int) (l : Ledger)
    (j : String) (info : JournalProgress) (hj : l j = some info) :
    (∀ dt, info.last_processed = some dt → dt < now - R →
      cleanup R now l j = none) ∧
    (∀ dt, info.last_processed = some dt → now - R ≤ dt →
      cleanup R now l j = some (trimStep info)) ∧
    (info.last_processed = none → cleanup R now l j = some (trimStep info)) := by
  rw [cleanup_eq_some R now l j info hj]
  refine ⟨?_, ?_, ?_⟩
  · intro dt hdt hlt
    rw [trimStep_last_processed, hdt]
    simp [hlt]
  · intro dt hdt hle
    rw [trimStep_last_processed, hdt]
    have hn : ¬ (dt < now - (R : Int)) := by omega
    simp [hn]
  · intro hdt
    rw [trimStep_last_processed, hdt]

/-- C8, witness: retention 90 at clock 0; a journal 91 days stale is
evicted, one 89 days old remains, one with a null timestamp remains. -/
theorem cleanup_staleness_eviction_witness :
    cleanup 90 0 staleLedger "a" = none ∧
    cleanup 90 0 freshLedger "a" = some (trimStep freshInfo) ∧
    cleanup 90 0 nullLedger "a" = some (trimStep nullInfo) :=
  ⟨(cleanup_staleness_eviction 90 0 staleLedger "a" staleInfo (by decide)).1
      (-91) rfl (by decide),
   (cleanup_staleness_eviction 90 0 freshLedger "a" freshInfo (by decide)).2.1
      (-89) rfl (by decide),
   (cleanup_staleness_eviction 90 0 nullLedger "a" nullInfo (by decide)).2.2 rfl⟩

/-- C10, counterexample: `add_processed` draws the clock twice, once for
each timestamp field, so a single call in which the clock advances between
the two draws (here 0, then 1) produces a reachable state whose journal
record has `last_processed` different from `last_success`. -/
theorem add_processed_timestamps_diverge :
    Reachable (add_processed emptyLedger "j" "p" 0 1) ∧
    (add_processed emptyLedger "j" "p" 0 1) "j" =
      some { last_processed := some 0, processed_ids := ["p"],
             last_success := some 1, error_count := 0 } ∧
    ¬ ({ last_processed := some 0, processed_ids := ["p"],
         last_success := some 1, error_count := 0 } : JournalProgress).last_processed
        = ({ last_processed := some 0, processed_ids := ["p"],
             last_success := some 1, error_count := 0 } : JournalProgress).last_success :=
  ⟨Reachable.add emptyLedger "j" "p" 0 1 Reachable.empty, by decide, by decide⟩

/-- C10, amended: provided the two clock draws inside each `add_processed`
call return the same value, every journal record of every state reachable
from the empty ledger by `is_processed`, `add_processed` and `cleanup` has
`last_processed` equal to `last_success`. -/
theorem reachable_sync_timestamps_equal (l : Ledger) (h : ReachableSync l) :
    ∀ (j : String) (r : JournalProgress), l j = some r →
      r.last_processed = r.last_success := by
  induction h with
  | empty => intro j r hr; exact absurd hr (by simp [emptyLedger])
  | add l0 j0 p t _ ih =>
    intro j r hr
    by_cases hj : j = j0
    · subst hj
      rw [add_processed_self] at hr
      obtain rfl := (Option.some.inj hr).symm
      rfl
    · rw [add_processed_other l0 j0 p t t j hj] at hr
      exact ih j r hr
  | clean l0 R now _ ih =>
    intro j r hr
    cases hl : l0 j with
    | none =>
      rw [cleanup_eq_none R now l0 j hl] at hr
      exact absurd hr (by simp)
    | some info =>
      have hrt : r = trimStep info := cleanup_some R now l0 j info r hl hr
      rw [hrt, trimStep_last_processed, trimStep_last_success]
      exact ih j info hl

/-- C10, witness for the amended claim: one synchronized call. -/
theorem reachable_sync_timestamps_equal_witness :
    (add_processed emptyLedger "j" "p" 5 5) "j" =
      some { last_processed := some 5, processed_ids := ["p"],
             last_success := some 5, error_count := 0 } ∧
    ({ last_processed := some 5, processed_ids := ["p"],
       last_success := some 5, error_count := 0 } : JournalProgress).last_processed
      = ({ last_processed := some 5, processed_ids := ["p"],
           last_success := some 5, error_count := 0 } : JournalProgress).last_success :=
  ⟨by decide,
   reachable_sync_timestamps_equal (add_processed emptyLedger "j" "p" 5 5)
     (ReachableSync.add emptyLedger "j" "p" 5 ReachableSync.empty) "j"
     { last_processed := some 5, processed_ids := ["p"],
       last_success := some 5, error_count := 0 } (by decide)⟩

/-! ## Lemmas about the directory model -/

/-- Reading a freshly written file yields the written content. -/
theorem readFile_writeFile_self {α : Type} (fs : Dir α) (n : FName)
    (c : FileContent α) : readFile (writeFile fs n c) n = some c := by
  induction fs with
  | nil => simp [writeFile, readFile]
  | cons hd t ih =>
    obtain ⟨m, c0⟩ := hd
    by_cases hm : m = n
    · subst hm; simp [writeFile, readFile]
    · simp [writeFile, readFile, hm, ih]

/-- Writing one file does not change any other. -/
theorem readFile_writeFile_ne {α : Type} (fs : Dir α) (n m : FName)
    (c : FileContent α) (h : m ≠ n) :
    readFile (writeFile fs n c) m = readFile fs m := by
  induction fs with
  | nil => simp [writeFile, readFile, Ne.symm h]
  | cons hd t ih =>
    obtain ⟨k, c0⟩ := hd
    by_cases hk : k = n
    · subst hk
      simp [writeFile, readFile, Ne.symm h]
    · simp only [writeFile, if_neg hk, readFile]
      by_cases hkm : k = m
      · simp [hkm]
      · simp [hkm, ih]

/-- A removed file is gone. -/
theorem readFile_removeFile_self {α : Type} (fs : Dir α) (n : FName) :
    readFile (removeFile fs n) n = none := by
  induction fs with
  | nil => simp [removeFile, readFile]
  | cons hd t ih =>
    obtain ⟨k, c0⟩ := hd
    by_cases hk : k = n
    · simp [removeFile, hk, ih]
    · simp [removeFile, readFile, hk, ih]

/-- Removing one file does not change any other. -/
theorem readFile_removeFile_ne {α : Type} (fs : Dir α) (n m : FName)
    (h : m ≠ n) : readFile (removeFile fs n) m = readFile fs m := by
  induction fs with
  | nil => simp [removeFile]
  | cons hd t ih =>
    obtain ⟨k, c0⟩ := hd
    by_cases hk : k = n
    · subst hk
      have hstep : removeFile ((k, c0) :: t) k = removeFile t k := by simp [removeFile]
      rw [hstep, ih]
      simp [readFile, Ne.symm h]
    · simp only [removeFile, if_neg hk, readFile]
      by_cases hkm : k = m
      · simp [hkm]
      · simp [hkm, ih]

/-- The guarded removal leaves the target absent. -/
theorem readFile_removeIfExists_self {α : Type} (fs : Dir α) (n : FName) :
    readFile (removeIfExists fs n) n = none := by
  unfold removeIfExists
  by_cases h : (readFile fs n).isSome
  · rw [if_pos h]; exact readFile_removeFile_self fs n
  · rw [if_neg h]
    cases hr : readFile fs n with
    | none => rfl
    | some c => rw [hr] at h; simp at h

/-- The guarded removal does not change any other file. -/
theorem readFile_removeIfExists_ne {α : Type} (fs : Dir α) (n m : FName)
    (h : m ≠ n) : readFile (removeIfExists fs n) m = readFile fs m := by
  unfold removeIfExists
  split
  · exact readFile_removeFile_ne fs n m h
  · rfl

/-- Folding removals over names different from `n` does not change `n`. -/
theorem readFile_foldl_removeFile {α : Type} (names : List FName) :
    ∀ (fs : Dir α) (n : FName), (∀ m ∈ names, m ≠ n) →
      readFile (names.foldl removeFile fs) n = readFile fs n := by
  induction names with
  | nil => intro fs n _; rfl
  | cons hd t ih =>
    intro fs n hmem
    rw [List.foldl_cons]
    rw [ih (removeFile fs hd) n (fun m hm => hmem m (List.mem_cons_of_mem hd hm))]
    exact readFile_removeFile_ne fs hd n (hmem hd (List.mem_cons_self hd t)).symm


/-- Every sorted candidate passes the prefix filter. -/
theorem matchesBaseDot_of_mem_sortedCandidates {α : Type} {fs : Dir α}
    {b : FName} (hb : b ∈ sortedCandidates fs) : matchesBaseDot b = true := by
  unfold sortedCandidates at hb
  rw [List.mem_insertionSort] at hb
  exact (List.mem_filter.mp hb).2

/-- A candidate is never the live file. -/
theorem ne_live_of_matches {b : FName} (hb : matchesBaseDot b = true) :
    b ≠ .live := by
  cases b <;> simp_all [matchesBaseDot]

/-- The candidate list is sorted by descending realized name. -/
theorem sortedCandidates_sorted {α : Type} (fs : Dir α) :
    List.Sorted descBefore (sortedCandidates fs) :=
  List.sorted_insertionSort descBefore _

/-- Backup rotation does not touch the live file: the copy goes to a backup
name and the pruning loop only removes prefix-filtered candidates. -/
theorem readFile_rotate_live {α : Type} (ts bc : Nat) (fs : Dir α) :
    readFile (rotate_backups ts bc fs) .live = readFile fs .live := by
  unfold rotate_backups
  split
  · rfl
  · next c _ =>
    have hnames : ∀ m ∈ (sortedCandidates (writeFile fs (.bak ts) c)).drop bc,
        m ≠ FName.live := fun m hm =>
      ne_live_of_matches
        (matchesBaseDot_of_mem_sortedCandidates (List.mem_of_mem_drop hm))
    rw [readFile_foldl_removeFile _ _ _ hnames]
    exact readFile_writeFile_ne fs (.bak ts) .live c (by simp)

/-- When every candidate fails to parse, the recovery loop returns nothing. -/
theorem tryBackups_none {α : Type} (fs : Dir α) :
    ∀ ls : List FName, (∀ b ∈ ls, (readFile fs b).bind jsonLoad = none) →
      tryBackups fs ls = none := by
  intro ls
  induction ls with
  | nil => intro _; rfl
  | cons b bs ih =>
    intro hall
    have hb := hall b (List.mem_cons_self b bs)
    simp only [tryBackups, hb]
    exact ih fun x hx => hall x (List.mem_cons_of_mem b hx)

/-- On a descending-sorted candidate list whose parseable entries other than
`b` all have strictly smaller realized names, the recovery loop returns the
payload of `b`. -/
theorem tryBackups_max {α : Type} (fs : Dir α) :
    ∀ (ls : List FName) (b : FName) (d : α), List.Sorted descBefore ls →
      b ∈ ls → (readFile fs b).bind jsonLoad = some d →
      (∀ b2 ∈ ls, (readFile fs b2).bind jsonLoad ≠ none →
        b2 = b ∨ nameKeyLt b2 b) →
      tryBackups fs ls = some d := by
  intro ls
  induction ls with
  | nil => intro b d _ hb _ _; exact absurd hb (List.not_mem_nil b)
  | cons h t ih =>
    intro b d hsort hb hparse hmax
    rw [List.sorted_cons] at hsort
    by_cases hhb : h = b
    · subst hhb
      simp only [tryBackups, hparse]
    · have hbt : b ∈ t := by
        rcases List.mem_cons.mp hb with he | ht2
        · exact absurd he.symm hhb
        · exact ht2
      have hhnone : (readFile fs h).bind jsonLoad = none := by
        by_contra hne
        rcases hmax h (List.mem_cons_self h t) hne with heq | hlt
        · exact hhb heq
        · exact hlt.2 (hsort.1 b hbt)
      simp only [tryBackups, hhnone]
      exact ih b d hsort.2 hbt hparse
        fun b2 hb2 hne => hmax b2 (List.mem_cons_of_mem h hb2) hne

/-! ## Claims about persistence -/

/-- C5: `load` is a total function (the model of never raising).  An absent
ledger file yields the empty ledger.  A present but unparseable live file
triggers the recovery cascade over the prefix-filtered candidates in
descending lexicographic name order: the ledger becomes the payload of the
greatest-named candidate that parses, and the empty ledger when none
parses.  A parseable live file is loaded directly. -/
theorem load_recovery_cascade {α : Type} (empty : α) (fs : Dir α) :
    (readFile fs .live = none → load empty fs = empty) ∧
    (∀ c, readFile fs .live = some c → jsonLoad c = none →
      ((∀ b ∈ sortedCandidates fs, (readFile fs b).bind jsonLoad = none) →
        load empty fs = empty) ∧
      (∀ b d, b ∈ sortedCandidates fs →
        (readFile fs b).bind jsonLoad = some d →
        (∀ b2 ∈ sortedCandidates fs, (readFile fs b2).bind jsonLoad ≠ none →
          b2 = b ∨ nameKeyLt b2 b) →
        load empty fs = d)) ∧
    (∀ c d, readFile fs .live = some c → jsonLoad c = some d →
      load empty fs = d) := by
  refine ⟨?_, ?_, ?_⟩
  · intro h; simp [load, h]
  · intro c hc hnone
    constructor
    · intro hall
      simp only [load, hc, hnone, recover_from_backup]
      rw [tryBackups_none fs (sortedCandidates fs) hall]
      rfl
    · intro b d hb hparse hmax
      simp only [load, hc, hnone, recover_from_backup]
      rw [tryBackups_max fs (sortedCandidates fs) b d
        (sortedCandidates_sorted fs) hb hparse hmax]
      rfl
  · intro c d hc hd; simp [load, hc, hd]

/-- C5, witness: a corrupt live file with two valid backups recovers the
payload of the newer backup; an all-corrupt directory and an empty
directory both fall back to the empty ledger. -/
theorem load_recovery_cascade_witness :
    load 0 fsC5 = 2 ∧ load 0 fsC5bad = 0 ∧ load (0 : Nat) ([] : Dir Nat) = 0 :=
  ⟨((load_recovery_cascade 0 fsC5).2.1 .invalid (by decide) rfl).2
      (.bak 20240102000000) 2 (by decide) (by decide) (by decide),
   ((load_recovery_cascade 0 fsC5bad).2.1 .invalid (by decide) rfl).1 (by decide),
   (load_recovery_cascade 0 ([] : Dir Nat)).1 rfl⟩

/-- Shape of `save` when the rotation step raises with a live file present. -/
theorem save_rotate_live_eq {α : Type} (ts bc : Nat) (d : α) (fs : Dir α)
    (h : (readFile fs .live).isSome) :
    save ts bc d .rotate fs = removeIfExists fs .tmp := by
  unfold save
  rw [if_pos ⟨rfl, h⟩]

/-- Shape of `save` injected with a rotation failure when no live file
exists: the rotation step never runs, so the run completes normally. -/
theorem save_rotate_noLive_eq {α : Type} (ts bc : Nat) (d : α) (fs : Dir α)
    (h : readFile fs .live = none) :
    save ts bc d .rotate fs =
      removeFile (writeFile (writeFile fs .tmp (.valid d)) .live (.valid d))
        .tmp := by
  unfold save
  rw [h]
  simp

/-- Shape of `save` when the temporary-file write raises partway. -/
theorem save_write_eq {α : Type} (ts bc : Nat) (d : α) (fs : Dir α) :
    save ts bc d .write fs =
      removeIfExists
        (writeFile (if (readFile fs .live).isSome
          then rotate_backups ts bc fs else fs) .tmp .invalid) .tmp := by
  unfold save
  rw [if_neg (by simp), if_pos rfl]

/-- Shape of `save` when the atomic rename raises. -/
theorem save_replace_eq {α : Type} (ts bc : Nat) (d : α) (fs : Dir α) :
    save ts bc d .replace fs =
      removeIfExists
        (writeFile (if (readFile fs .live).isSome
          then rotate_backups ts bc fs else fs) .tmp (.valid d)) .tmp := by
  unfold save
  rw [if_neg (by simp), if_neg (by simp), if_pos rfl]

/-- Shape of a failure-free `save`. -/
theorem save_noFail_eq {α : Type} (ts bc : Nat) (d : α) (fs : Dir α) :
    save ts bc d .noFail fs =
      removeFile
        (writeFile (writeFile (if (readFile fs .live).isSome
          then rotate_backups ts bc fs else fs) .tmp (.valid d))
          .live (.valid d)) .tmp := by
  unfold save
  rw [if_neg (by simp), if_neg (by simp), if_neg (by simp)]

/-- C4: on every path of `save` — any injected failure point or none — the
live file afterwards holds either its previous complete content or the
complete new payload, never the partial write (only the temporary file ever
holds partial content, and installation is the atomic rename); on every
path the temporary file is absent afterwards, in particular the error
handler removes it when a step raised; and a failure-free run installs the
new payload.  `save` returning a directory on every input is the model of
the fact that it never raises. -/
theorem save_atomic_and_silent {α : Type} (ts bc : Nat) (d : α)
    (fail : FailPoint) (fs : Dir α) :
    (readFile (save ts bc d fail fs) .live = readFile fs .live ∨
     readFile (save ts bc d fail fs) .live = some (.valid d)) ∧
    readFile (save ts bc d fail fs) .tmp = none ∧
    (fail = .noFail → readFile (save ts bc d fail fs) .live = some (.valid d)) := by
  have hlive1 : readFile (if (readFile fs .live).isSome
      then rotate_backups ts bc fs else fs) .live = readFile fs .live := by
    split
    · exact readFile_rotate_live ts bc fs
    · rfl
  cases fail with
  | rotate =>
    by_cases hl : (readFile fs .live).isSome
    · rw [save_rotate_live_eq ts bc d fs hl]
      exact ⟨Or.inl (readFile_removeIfExists_ne fs .tmp .live (by simp)),
        readFile_removeIfExists_self fs .tmp,
        fun he => absurd he (by simp)⟩
    · have hnone : readFile fs .live = none := by
        cases hrf : readFile fs .live with
        | none => rfl
        | some c => rw [hrf] at hl; simp at hl
      rw [save_rotate_noLive_eq ts bc d fs hnone]
      refine ⟨Or.inr ?_, readFile_removeFile_self _ .tmp,
        fun he => absurd he (by simp)⟩
      rw [readFile_removeFile_ne _ .tmp .live (by simp)]
      exact readFile_writeFile_self _ .live (.valid d)
  | write =>
    rw [save_write_eq ts bc d fs]
    refine ⟨Or.inl ?_, readFile_removeIfExists_self _ .tmp,
      fun he => absurd he (by simp)⟩
    rw [readFile_removeIfExists_ne _ .tmp .live (by simp)]
    rw [readFile_writeFile_ne _ .tmp .live .invalid (by simp)]
    exact hlive1
  | replace =>
    rw [save_replace_eq ts bc d fs]
    refine ⟨Or.inl ?_, readFile_removeIfExists_self _ .tmp,
      fun he => absurd he (by simp)⟩
    rw [readFile_removeIfExists_ne _ .tmp .live (by simp)]
    rw [readFile_writeFile_ne _ .tmp .live (.valid d) (by simp)]
    exact hlive1
  | noFail =>
    rw [save_noFail_eq ts bc d fs]
    have hfin : readFile (removeFile
        (writeFile (writeFile (if (readFile fs .live).isSome
          then rotate_backups ts bc fs else fs) .tmp (.valid d))
          .live (.valid d)) .tmp) .live = some (.valid d) := by
      rw [readFile_removeFile_ne _ .tmp .live (by simp)]
      exact readFile_writeFile_self _ .live (.valid d)
    exact ⟨Or.inr hfin, readFile_removeFile_self _ .tmp, fun _ => hfin⟩

/-- C4, witness: a failed temporary write leaves the old live payload 7 and
no temporary file; a failure-free save installs payload 9. -/
theorem save_atomic_and_silent_witness :
    readFile (save 1 5 9 .write fsC4) .tmp = none ∧
    (readFile (save 1 5 9 .write fsC4) .live = readFile fsC4 .live ∨
     readFile (save 1 5 9 .write fsC4) .live = some (.valid 9)) ∧
    readFile (save 1 5 9 .noFail fsC4) .live = some (.valid 9) :=
  ⟨(save_atomic_and_silent 1 5 9 .write fsC4).2.1,
   (save_atomic_and_silent 1 5 9 .write fsC4).1,
   (save_atomic_and_silent 1 5 9 .noFail fsC4).2.2 rfl⟩
